import Mathlib

/-!
Verification of the panorama detection core of `sf-search`
(`src/pano_detector.py`): the back-projector
`perspective_box_to_equirect`, the merger (`wbf_merge` then `nms`),
the tile scheduler inside `run_detection`, and the batch control flow
of `run_detection`.

All pixel coordinates and scores are modelled as rationals (the Python
code uses IEEE floats; every concrete scenario below is exact in both).
The numpy `arange` enumeration, Python `round` (half to even),
float `% 1.0` and the `1e-6` epsilons are modelled exactly.
-/

namespace PanoDetector

/-- Python float `q % 1.0` for a positive modulus of 1: the fractional
part in `[0, 1)`. -/
def fracPart (q : ℚ) : ℚ := q - ⌊q⌋

/-- Python `int(round(v))`: round half to even (banker's rounding). -/
def pyRound (q : ℚ) : ℤ :=
  if q - ⌊q⌋ < 1/2 then ⌊q⌋
  else if 1/2 < q - ⌊q⌋ then ⌊q⌋ + 1
  else if (⌊q⌋ : ℤ) % 2 = 0 then ⌊q⌋ else ⌊q⌋ + 1

/-- `np.clip(v, lo, hi)` on integers. -/
def clipZ (v lo hi : ℤ) : ℤ := min hi (max lo v)

/-- Minimum of a list of rationals (`np.min`; lists here are nonempty). -/
def lmin : List ℚ → ℚ
  | [] => 0
  | x :: l => l.foldl min x

/-- Maximum of a list of rationals (`np.max`). -/
def lmax : List ℚ → ℚ
  | [] => 0
  | x :: l => l.foldl max x

/-- Number of entries of `np.arange(start, stop, step)` for `step > 0`:
`ceil((stop - start) / step)`, and `0` when that is not positive. -/
def arangeLen (start stop step : ℚ) : ℕ := (⌈(stop - start) / step⌉).toNat

/-- `np.arange(start, stop, step)`. -/
def arange (start stop step : ℚ) : List ℚ :=
  (List.range (arangeLen start stop step)).map (fun k => start + (k : ℚ) * step)

/-- A detection as in the `Det` dataclass of the source. -/
structure Det where
  x1 : ℚ
  y1 : ℚ
  x2 : ℚ
  y2 : ℚ
  cls : ℤ
  score : ℚ
deriving DecidableEq, Repr

/-- A raw detector output before back-projection: one `(box, cls, score)`
row of the YOLO result consumed by `run_detection`. -/
structure RawDet where
  box : ℚ × ℚ × ℚ × ℚ
  cls : ℤ
  score : ℚ
deriving DecidableEq, Repr

/-- The sampling map of one viewport: the `map_x`/`map_y` grids returned
by `equirect_to_perspective` (shape `rows × cols`), indexed row-first as
in `map_x[y, x]`. -/
structure SampleMap where
  rows : ℕ
  cols : ℕ
  mx : ℕ → ℕ → ℚ
  my : ℕ → ℕ → ℚ

/-- Lines 142-146 of the source: round the box corners to ints and clip
them into the map's shape. -/
def clipBox (m : SampleMap) (box : ℚ × ℚ × ℚ × ℚ) : ℤ × ℤ × ℤ × ℤ :=
  (clipZ (pyRound box.1) 0 ((m.cols : ℤ) - 1),
   clipZ (pyRound box.2.1) 0 ((m.rows : ℤ) - 1),
   clipZ (pyRound box.2.2.1) 0 ((m.cols : ℤ) - 1),
   clipZ (pyRound box.2.2.2) 0 ((m.rows : ℤ) - 1))

/-- `np.linspace(0, 1, 40)`: the 40 interpolation parameters `k / 39`. -/
def tList : List ℚ := (List.range 40).map (fun k => (k : ℚ) / 39)

/-- The 160 perimeter sample points (col, row) of the source's two
sampling loops: top and bottom edges for each t, then left and right
edges for each t. -/
def perimPoints (x1 y1 x2 y2 : ℤ) : List (ℤ × ℤ) :=
  (tList.map (fun t =>
      let xs := pyRound ((x1 : ℚ) + t * ((x2 : ℚ) - (x1 : ℚ)))
      [(xs, y1), (xs, y2)])).flatten
  ++ (tList.map (fun t =>
      let ys := pyRound ((y1 : ℚ) + t * ((y2 : ℚ) - (y1 : ℚ)))
      [(x1, ys), (x2, ys)])).flatten

/-- The source-x coordinates of the perimeter samples (`xs` array). -/
def sampleXs (m : SampleMap) (x1 y1 x2 y2 : ℤ) : List ℚ :=
  (perimPoints x1 y1 x2 y2).map (fun p => m.mx p.2.toNat p.1.toNat)

/-- The source-y coordinates of the perimeter samples (`ys` array). -/
def sampleYs (m : SampleMap) (x1 y1 x2 y2 : ℤ) : List ℚ :=
  (perimPoints x1 y1 x2 y2).map (fun p => m.my p.2.toNat p.1.toNat)

/-- `(ang + shift) % 1.0` applied to every normalized sample angle
`x / seam_w` (lines 164-168). -/
def shiftedAngles (xs : List ℚ) (seamW : ℤ) (shift : ℚ) : List ℚ :=
  xs.map (fun x => fracPart (x / (seamW : ℚ) + shift))

/-- `a.max() - a.min()` of a list of shifted angles. -/
def spanOf (l : List ℚ) : ℚ := lmax l - lmin l

/-- The `spans` list of the source: one `(span, shift, shifted values)`
triple per candidate shift, for the shifts 0.0 and 0.5 in that order. -/
def spanChoices (xs : List ℚ) (seamW : ℤ) : List (ℚ × ℚ × List ℚ) :=
  [(spanOf (shiftedAngles xs seamW 0), 0, shiftedAngles xs seamW 0),
   (spanOf (shiftedAngles xs seamW (1/2)), 1/2, shiftedAngles xs seamW (1/2))]

/-- Python `min(spans, key=lambda t: t[0])`: the first triple with the
minimal span. -/
def minBySpan : List (ℚ × ℚ × List ℚ) → ℚ × ℚ × List ℚ
  | [] => (0, 0, [])
  | x :: l => l.foldl (fun acc t => if t.1 < acc.1 then t else acc) x

/-- Lines 161-183 of the source: seam-aware bounds of the sampled
perimeter, clamped to `[0, seam_w - 1]` in x and to `≥ 0` in y. -/
def backProjectBox (m : SampleMap) (x1 y1 x2 y2 : ℤ) (seamW : ℤ) :
    ℚ × ℚ × ℚ × ℚ :=
  let xs := sampleXs m x1 y1 x2 y2
  let ys := sampleYs m x1 y1 x2 y2
  let best := minBySpan (spanChoices xs seamW)
  let xAdj := best.2.2.map (fun a => fracPart a * (seamW : ℚ))
  (max 0 (min (lmin xAdj) ((seamW : ℚ) - 1)),
   max 0 (lmin ys),
   max 0 (min (lmax xAdj) ((seamW : ℚ) - 1)),
   max 0 (lmax ys))

/-- `perspective_box_to_equirect`: clip the box, drop it if degenerate,
otherwise back-project its perimeter samples into one equirect box. -/
def perspective_box_to_equirect (m : SampleMap) (box : ℚ × ℚ × ℚ × ℚ)
    (seamW : ℤ) : List (ℚ × ℚ × ℚ × ℚ) :=
  match clipBox m box with
  | (x1, y1, x2, y2) =>
    if x2 ≤ x1 ∨ y2 ≤ y1 then []
    else [backProjectBox m x1 y1 x2 y2 seamW]

/-! ### Detection merger: classwise NMS (lines 186-217) -/

/-- Inclusive box area of the `nms` function: `(x2 - x1 + 1) * (y2 - y1 + 1)`. -/
def areaN (b : Det) : ℚ := (b.x2 - b.x1 + 1) * (b.y2 - b.y1 + 1)

/-- Intersection area inside `nms`: widths and heights are inclusive and
floored at 0. -/
def interN (b1 b2 : Det) : ℚ :=
  max 0 (min b1.x2 b2.x2 - max b1.x1 b2.x1 + 1) *
  max 0 (min b1.y2 b2.y2 - max b1.y1 b2.y1 + 1)

/-- The IoU computed inside `nms` (line 208):
`inter / (areas[i] + areas[candidates] - inter + 1e-6)`. -/
def nmsIou (b1 b2 : Det) : ℚ :=
  interN b1 b2 / (areaN b1 + areaN b2 - interN b1 b2 + 1/1000000)

/-- One step of Python's stable `sorted(..., key=score, reverse=True)`:
insert after all strictly higher scores, before ties. -/
def insertDesc (d : Det) : List Det → List Det
  | [] => [d]
  | e :: l => if d.score < e.score then e :: insertDesc d l else d :: e :: l

/-- Stable sort by descending score, as Python's `sorted(..., reverse=True)`. -/
def sortByScoreDesc (l : List Det) : List Det := l.foldr insertDesc []

/-- Survival predicate of one `nms` suppression round: `d` survives keeper
`b` unless it has the same class and IoU at least the threshold
(lines 199-216: `to_remove = candidates - remain`). -/
def nmsKeep (t : ℚ) (b d : Det) : Bool := decide (d.cls = b.cls → nmsIou b d < t)

/-- The `while order.size > 0` loop of `nms`: keep the highest-score
remaining box, drop every later same-class box with IoU ≥ threshold.
The fuel argument is the initial list length, which the filtered tail
never exceeds, so the loop never runs out. -/
def nmsLoop (t : ℚ) : ℕ → List Det → List Det
  | _, [] => []
  | 0, _ :: _ => []
  | Nat.succ n, b :: rest => b :: nmsLoop t n (rest.filter (nmsKeep t b))

/-- `nms(boxes, iou_thresh)`: classwise greedy non-max suppression. -/
def nms (t : ℚ) (boxes : List Det) : List Det :=
  if boxes = [] then [] else nmsLoop t boxes.length (sortByScoreDesc boxes)

/-! ### Detection merger: Weighted Box Fusion (lines 219-268) -/

/-- Exclusive box area of `_iou`: `max(0, x2 - x1) * max(0, y2 - y1)`. -/
def areaW (b : Det) : ℚ := max 0 (b.x2 - b.x1) * max 0 (b.y2 - b.y1)

/-- Intersection area of `_iou`: exclusive widths, floored at 0. -/
def interW (b1 b2 : Det) : ℚ :=
  max 0 (min b1.x2 b2.x2 - max b1.x1 b2.x1) *
  max 0 (min b1.y2 b2.y2 - max b1.y1 b2.y1)

/-- The `_iou` helper used by `wbf_merge` (lines 219-230):
`inter / denom if denom > 0 else 0.0` with `denom = a1 + a2 - inter + 1e-6`. -/
def _iou (b1 b2 : Det) : ℚ :=
  if 0 < areaW b1 + areaW b2 - interW b1 b2 + 1/1000000
  then interW b1 b2 / (areaW b1 + areaW b2 - interW b1 b2 + 1/1000000)
  else 0

/-- Keys of a Python dict in insertion order: the classes of the
detections, first occurrence first. -/
def firstKeys : List ℤ → List ℤ
  | [] => []
  | c :: rest => c :: (firstKeys rest).filter (fun k => !(k == c))

/-- The iteration order of `by_cls` in `wbf_merge`. -/
def keysOf (dets : List Det) : List ℤ := firstKeys (dets.map Det.cls)

/-- Emit one cluster (lines 258-267): a singleton passes through
unchanged; a larger cluster becomes the score-weighted average box with
the maximum member score. -/
def fuseCluster (clsId : ℤ) : List Det → Det
  | [d] => d
  | cluster =>
      { x1 := (cluster.map (fun b => b.x1 * b.score)).foldl (· + ·) 0 /
              (cluster.map Det.score).foldl (· + ·) 0,
        y1 := (cluster.map (fun b => b.y1 * b.score)).foldl (· + ·) 0 /
              (cluster.map Det.score).foldl (· + ·) 0,
        x2 := (cluster.map (fun b => b.x2 * b.score)).foldl (· + ·) 0 /
              (cluster.map Det.score).foldl (· + ·) 0,
        y2 := (cluster.map (fun b => b.y2 * b.score)).foldl (· + ·) 0 /
              (cluster.map Det.score).foldl (· + ·) 0,
        cls := clsId,
        score := lmax (cluster.map Det.score) }

/-- The seeded clustering loop of `wbf_merge` (lines 245-267): each
unused box in score order seeds a cluster absorbing every later unused
box whose `_iou` with the seed reaches the threshold.  Fuel as in
`nmsLoop`. -/
def clusterLoop (t : ℚ) (clsId : ℤ) : ℕ → List Det → List Det
  | _, [] => []
  | 0, _ :: _ => []
  | Nat.succ n, d :: rest =>
      fuseCluster clsId (d :: rest.filter (fun j => decide (t ≤ _iou d j))) ::
      clusterLoop t clsId n (rest.filter (fun j => !decide (t ≤ _iou d j)))

/-- `wbf_merge(dets, iou_thresh)`: per-class weighted box fusion. -/
def wbf_merge (t : ℚ) (dets : List Det) : List Det :=
  if dets = [] then []
  else
    ((keysOf dets).map (fun c =>
        clusterLoop t c (dets.filter (fun d => d.cls == c)).length
          (sortByScoreDesc (dets.filter (fun d => d.cls == c))))).flatten

/-! ### Scheduler and orchestration (`run_detection`, lines 381-459) -/

/-- The configuration parameters of `run_detection` that drive the
schedule and the merge thresholds. -/
structure Config where
  fovs : List ℚ
  overlap : ℚ
  pitchMin : ℚ
  pitchMax : ℚ
  iouNms : ℚ
  scoreThresh : ℚ

/-- Lines 414-416: `step = fov * (1.0 - overlap); if step <= 0: step = fov`. -/
def stepOf (fov overlap : ℚ) : ℚ :=
  if fov * (1 - overlap) ≤ 0 then fov else fov * (1 - overlap)

/-- Line 417: `np.arange(0.0, 360.0, max(1.0, step))`. -/
def yawVals (step : ℚ) : List ℚ := arange 0 360 (max 1 step)

/-- Line 418: `np.arange(pitch_min, pitch_max + 1e-6, max(1.0, step))`. -/
def pitchVals (pmin pmax step : ℚ) : List ℚ :=
  arange pmin (pmax + 1/1000000) (max 1 step)

/-- The `fov_specs` list: one `(fov, yaw_vals, pitch_vals)` triple per
configured fov. -/
def fovSpecs (cfg : Config) : List (ℚ × List ℚ × List ℚ) :=
  cfg.fovs.map (fun f =>
    (f, yawVals (stepOf f cfg.overlap),
     pitchVals cfg.pitchMin cfg.pitchMax (stepOf f cfg.overlap)))

/-- The viewport visit order of lines 424-426: for each fov, for each
pitch, for each yaw. -/
def schedule (cfg : Config) : List (ℚ × ℚ × ℚ) :=
  ((fovSpecs cfg).map (fun s =>
     (s.2.2.map (fun p => s.2.1.map (fun y => (s.1, y, p)))).flatten)).flatten

/-- Lines 441-448: keep raw detections whose score reaches the
threshold, back-project each one and append every resulting box to the
accumulator, with no further check. -/
def viewportDets (m : SampleMap) (seamW : ℤ) (scoreThresh : ℚ)
    (raw : List RawDet) : List Det :=
  ((raw.filter (fun r => !decide (r.score < scoreThresh))).map (fun r =>
      (perspective_box_to_equirect m r.box seamW).map (fun b =>
        Det.mk b.1 b.2.1 b.2.2.1 b.2.2.2 r.cls r.score))).flatten

/-- The `all_dets` accumulation loop of one image.  The projector and
the detector are external capabilities: `proj` stands for
`equirect_to_perspective` (float trigonometry, supplied as the sampling
map of each scheduled viewport) and `det` for `model.predict`, which
may raise — modelled as `Except`.  The source has no exception handler,
so a detector error aborts the fold exactly as an uncaught Python
exception aborts the loops. -/
def accumulatedDets (proj : ℚ × ℚ × ℚ → SampleMap)
    (det : ℚ × ℚ × ℚ → Except Unit (List RawDet)) (seamW : ℤ)
    (cfg : Config) : Except Unit (List Det) :=
  (schedule cfg).foldlM (fun acc v => do
      let raw ← det v
      pure (acc ++ viewportDets (proj v) seamW cfg.scoreThresh raw)) []

/-- Per-image pipeline of `run_detection`: accumulate, then merge with
WBF (threshold clamped into [0.3, 0.9]) followed by NMS (line 452-453). -/
def runImage (proj : ℚ × ℚ × ℚ → SampleMap)
    (det : ℚ × ℚ × ℚ → Except Unit (List RawDet)) (seamW : ℤ)
    (cfg : Config) : Except Unit (List Det) :=
  (accumulatedDets proj det seamW cfg).map (fun all =>
    nms cfg.iouNms (wbf_merge (max (3/10) (min (9/10) cfg.iouNms)) all))

/-- The batch loop of `run_detection` over the sorted image list:
an unreadable image (`readImg = none`, line 406-408) is skipped; any
detector error propagates out of the whole fold, as the uncaught
exception would. -/
def runDetectionBatch (readImg : ℕ → Option ℤ)
    (proj : ℚ × ℚ × ℚ → SampleMap)
    (det : ℕ → ℚ × ℚ × ℚ → Except Unit (List RawDet))
    (cfg : Config) (imgs : List ℕ) :
    Except Unit (List (ℕ × List Det)) :=
  imgs.foldlM (fun acc i =>
    match readImg i with
    | none => pure acc
    | some w => do
        let dets ← runImage proj (det i) w cfg
        pure (acc ++ [(i, dets)])) []

/-- C3's spec-side IoU, written from the spec sentence: pixel-inclusive
area `(x2 - x1 + 1) * (y2 - y1 + 1)` for both boxes, inclusive
intersection, and the union denominator floored by the small epsilon. -/
def specInclusiveIoU (b1 b2 : Det) : ℚ :=
  (max 0 (min b1.x2 b2.x2 - max b1.x1 b2.x1 + 1) *
   max 0 (min b1.y2 b2.y2 - max b1.y1 b2.y1 + 1)) /
  ((b1.x2 - b1.x1 + 1) * (b1.y2 - b1.y1 + 1) +
   (b2.x2 - b2.x1 + 1) * (b2.y2 - b2.y1 + 1) -
   max 0 (min b1.x2 b2.x2 - max b1.x1 b2.x1 + 1) *
   max 0 (min b1.y2 b2.y2 - max b1.y1 b2.y1 + 1) + 1/1000000)

/-! ### Helper lemmas about list minima and maxima -/

lemma foldl_min_le_init (l : List ℚ) : ∀ a : ℚ, l.foldl min a ≤ a := by
  induction l with
  | nil => intro a; simp
  | cons x l ih =>
      intro a
      simpa using le_trans (ih (min a x)) (min_le_left a x)

lemma foldl_min_le_mem (l : List ℚ) : ∀ (a x : ℚ), x ∈ l → l.foldl min a ≤ x := by
  induction l with
  | nil => intro a x hx; cases hx
  | cons e l ih =>
      intro a x hx
      rcases List.mem_cons.1 hx with h | h
      · subst h
        simpa using le_trans (foldl_min_le_init l (min a x)) (min_le_right a x)
      · simpa using ih (min a e) x h

lemma le_foldl_min (l : List ℚ) :
    ∀ (a c : ℚ), c ≤ a → (∀ x ∈ l, c ≤ x) → c ≤ l.foldl min a := by
  induction l with
  | nil => intro a c hca _; simpa using hca
  | cons e l ih =>
      intro a c hca hall
      simpa using ih (min a e) c (le_min hca (hall e (by simp)))
        (fun x hx => hall x (by simp [hx]))

lemma lmin_le_of_mem {l : List ℚ} {x : ℚ} (hx : x ∈ l) : lmin l ≤ x := by
  cases l with
  | nil => cases hx
  | cons h tl =>
      rcases List.mem_cons.1 hx with he | he
      · subst he; exact foldl_min_le_init tl x
      · exact foldl_min_le_mem tl h x he

lemma le_lmin {l : List ℚ} {c : ℚ} (hne : l ≠ []) (h : ∀ x ∈ l, c ≤ x) :
    c ≤ lmin l := by
  cases l with
  | nil => exact absurd rfl hne
  | cons e tl =>
      exact le_foldl_min tl e c (h e (by simp)) (fun x hx => h x (by simp [hx]))

lemma lmin_eq {l : List ℚ} {c : ℚ} (hmem : c ∈ l) (hall : ∀ x ∈ l, c ≤ x) :
    lmin l = c :=
  le_antisymm (lmin_le_of_mem hmem) (le_lmin (List.ne_nil_of_mem hmem) hall)

lemma le_foldl_max (l : List ℚ) : ∀ a : ℚ, a ≤ l.foldl max a := by
  induction l with
  | nil => intro a; simp
  | cons x l ih =>
      intro a
      simpa using le_trans (le_max_left a x) (ih (max a x))

lemma mem_le_foldl_max (l : List ℚ) : ∀ (a x : ℚ), x ∈ l → x ≤ l.foldl max a := by
  induction l with
  | nil => intro a x hx; cases hx
  | cons e l ih =>
      intro a x hx
      rcases List.mem_cons.1 hx with h | h
      · subst h
        simpa using le_trans (le_max_right a x) (le_foldl_max l (max a x))
      · simpa using ih (max a e) x h

lemma foldl_max_le (l : List ℚ) :
    ∀ (a c : ℚ), a ≤ c → (∀ x ∈ l, x ≤ c) → l.foldl max a ≤ c := by
  induction l with
  | nil => intro a c hac _; simpa using hac
  | cons e l ih =>
      intro a c hac hall
      simpa using ih (max a e) c (max_le hac (hall e (by simp)))
        (fun x hx => hall x (by simp [hx]))

lemma le_lmax_of_mem {l : List ℚ} {x : ℚ} (hx : x ∈ l) : x ≤ lmax l := by
  cases l with
  | nil => cases hx
  | cons h tl =>
      rcases List.mem_cons.1 hx with he | he
      · subst he; exact le_foldl_max tl x
      · exact mem_le_foldl_max tl h x he

lemma lmax_le {l : List ℚ} {c : ℚ} (hne : l ≠ []) (h : ∀ x ∈ l, x ≤ c) :
    lmax l ≤ c := by
  cases l with
  | nil => exact absurd rfl hne
  | cons e tl =>
      exact foldl_max_le tl e c (h e (by simp)) (fun x hx => h x (by simp [hx]))

lemma lmax_eq {l : List ℚ} {c : ℚ} (hmem : c ∈ l) (hall : ∀ x ∈ l, x ≤ c) :
    lmax l = c :=
  le_antisymm (lmax_le (List.ne_nil_of_mem hmem) hall) (le_lmax_of_mem hmem)

/-! ### Helper lemmas about the two IoU computations -/

lemma interW_nonneg (b1 b2 : Det) : 0 ≤ interW b1 b2 :=
  mul_nonneg (le_max_left 0 _) (le_max_left 0 _)

lemma interW_le_areaW_left (b1 b2 : Det) : interW b1 b2 ≤ areaW b1 := by
  unfold interW areaW
  refine mul_le_mul ?_ ?_ (le_max_left 0 _) (le_max_left 0 _)
  · exact max_le_max le_rfl (sub_le_sub (min_le_left _ _) (le_max_left _ _))
  · exact max_le_max le_rfl (sub_le_sub (min_le_left _ _) (le_max_left _ _))

lemma interW_le_areaW_right (b1 b2 : Det) : interW b1 b2 ≤ areaW b2 := by
  unfold interW areaW
  refine mul_le_mul ?_ ?_ (le_max_left 0 _) (le_max_left 0 _)
  · exact max_le_max le_rfl (sub_le_sub (min_le_right _ _) (le_max_right _ _))
  · exact max_le_max le_rfl (sub_le_sub (min_le_right _ _) (le_max_right _ _))

/-- `_iou` never reaches 1: the union denominator always exceeds the
intersection by the epsilon. -/
lemma _iou_lt_one (b1 b2 : Det) : _iou b1 b2 < 1 := by
  unfold _iou
  by_cases h : 0 < areaW b1 + areaW b2 - interW b1 b2 + 1/1000000
  · rw [if_pos h, div_lt_one h]
    have h1 := interW_le_areaW_left b1 b2
    have h2 := interW_le_areaW_right b1 b2
    have h0 := interW_nonneg b1 b2
    linarith
  · rw [if_neg h]; norm_num

/-! ### Helper lemmas about the stable score sort -/

lemma insertDesc_perm (d : Det) (l : List Det) : (insertDesc d l).Perm (d :: l) := by
  induction l with
  | nil => exact List.Perm.refl _
  | cons e l ih =>
      by_cases h : d.score < e.score
      · simp only [insertDesc, if_pos h]
        exact (ih.cons e).trans (List.Perm.swap d e l)
      · simp only [insertDesc, if_neg h]
        exact List.Perm.refl _

lemma sortByScoreDesc_perm (l : List Det) : (sortByScoreDesc l).Perm l := by
  induction l with
  | nil => exact List.Perm.refl _
  | cons d l ih =>
      exact (insertDesc_perm d (sortByScoreDesc l)).trans (ih.cons d)

lemma sortByScoreDesc_length (l : List Det) :
    (sortByScoreDesc l).length = l.length :=
  (sortByScoreDesc_perm l).length_eq

/-! ### Helper lemmas about the NMS loop -/

lemma nmsLoop_mem (t : ℚ) :
    ∀ (n : ℕ) (l : List Det), ∀ d ∈ nmsLoop t n l, d ∈ l := by
  intro n
  induction n with
  | zero =>
      intro l d hd
      cases l with
      | nil => simp [nmsLoop] at hd
      | cons b rest => simp [nmsLoop] at hd
  | succ n ih =>
      intro l d hd
      cases l with
      | nil => simp [nmsLoop] at hd
      | cons b rest =>
          simp only [nmsLoop, List.mem_cons] at hd
          rcases hd with h | h
          · simp [h]
          · have := ih _ d h
            exact List.mem_cons_of_mem b (List.mem_of_mem_filter this)

lemma nmsLoop_pairwise (t : ℚ) :
    ∀ (n : ℕ) (l : List Det),
      (nmsLoop t n l).Pairwise (fun a b => a.cls = b.cls → nmsIou a b < t) := by
  intro n
  induction n with
  | zero =>
      intro l
      cases l with
      | nil => simp [nmsLoop]
      | cons b rest => simp [nmsLoop]
  | succ n ih =>
      intro l
      cases l with
      | nil => simp [nmsLoop]
      | cons b rest =>
          simp only [nmsLoop]
          refine List.Pairwise.cons ?_ (ih _)
          intro d hd hcls
          have hmem := nmsLoop_mem t n _ d hd
          have hkeep := List.of_mem_filter hmem
          have := of_decide_eq_true hkeep
          exact this hcls.symm

lemma nmsLoop_killer (t : ℚ) :
    ∀ (n : ℕ) (l : List Det), l.length ≤ n →
      ∀ d ∈ l, d ∉ nmsLoop t n l →
        ∃ k ∈ nmsLoop t n l, k.cls = d.cls ∧ t ≤ nmsIou k d := by
  intro n
  induction n with
  | zero =>
      intro l hl d hd _
      cases l with
      | nil => cases hd
      | cons b rest => simp at hl
  | succ n ih =>
      intro l hl d hd hout
      cases l with
      | nil => cases hd
      | cons b rest =>
          simp only [nmsLoop, List.mem_cons] at hout
          push_neg at hout
          obtain ⟨hdb, hdrest⟩ := hout
          rcases List.mem_cons.1 hd with h | h
          · exact absurd h hdb
          · by_cases hk : nmsKeep t b d = true
            · have hmem : d ∈ rest.filter (nmsKeep t b) :=
                List.mem_filter.2 ⟨h, hk⟩
              have hlen : (rest.filter (nmsKeep t b)).length ≤ n :=
                le_trans (List.length_filter_le _ _) (Nat.succ_le_succ_iff.1 hl)
              obtain ⟨k, hkmem, hkcls, hkiou⟩ := ih _ hlen d hmem hdrest
              exact ⟨k, by simp [nmsLoop, List.mem_cons, hkmem], hkcls, hkiou⟩
            · have : ¬(d.cls = b.cls → nmsIou b d < t) := by
                simpa [nmsKeep] using hk
              push_neg at this
              exact ⟨b, by simp [nmsLoop], this.1.symm, this.2⟩

/-! ### Helper lemmas about the WBF clustering loop -/

/-- With a threshold of at least 1 no pair ever clusters: the loop is
the identity. -/
lemma clusterLoop_id (t : ℚ) (ht : 1 ≤ t) (c : ℤ) :
    ∀ (n : ℕ) (l : List Det), l.length ≤ n → clusterLoop t c n l = l := by
  intro n
  induction n with
  | zero =>
      intro l hl
      cases l with
      | nil => simp [clusterLoop]
      | cons d rest => simp at hl
  | succ n ih =>
      intro l hl
      cases l with
      | nil => simp [clusterLoop]
      | cons d rest =>
          have hmates : rest.filter (fun j => decide (t ≤ _iou d j)) = [] := by
            rw [List.filter_eq_nil_iff]
            intro j _
            simp only [decide_eq_true_eq]
            intro hc
            exact absurd (lt_of_lt_of_le (_iou_lt_one d j) ht) (not_lt.2 hc)
          have hrest : rest.filter (fun j => !decide (t ≤ _iou d j)) = rest := by
            rw [List.filter_eq_self]
            intro j _
            simp only [Bool.not_eq_true', decide_eq_false_iff_not]
            intro hc
            exact absurd (lt_of_lt_of_le (_iou_lt_one d j) ht) (not_lt.2 hc)
          simp only [clusterLoop, hmates, hrest]
          rw [ih rest (Nat.succ_le_succ_iff.1 hl)]
          rfl

/-! ### Helper lemmas: grouping by class is a permutation -/

lemma mem_firstKeys {a : ℤ} : ∀ {l : List ℤ}, a ∈ firstKeys l ↔ a ∈ l := by
  intro l
  induction l with
  | nil => simp [firstKeys]
  | cons c rest ih =>
      simp only [firstKeys, List.mem_cons, List.mem_filter, Bool.not_eq_true',
        beq_eq_false_iff_ne, ne_eq]
      constructor
      · rintro (h | ⟨h, _⟩)
        · exact Or.inl h
        · exact Or.inr (ih.1 h)
      · rintro (h | h)
        · exact Or.inl h
        · by_cases hac : a = c
          · exact Or.inl hac
          · exact Or.inr ⟨ih.2 h, hac⟩

lemma nodup_firstKeys : ∀ (l : List ℤ), (firstKeys l).Nodup := by
  intro l
  induction l with
  | nil => simp [firstKeys]
  | cons c rest ih =>
      simp only [firstKeys]
      refine List.Nodup.cons ?_ (ih.filter _)
      intro hc
      have := List.of_mem_filter hc
      simp at this

lemma join_filter_perm :
    ∀ (ks : List ℤ) (l : List Det), ks.Nodup → (∀ d ∈ l, d.cls ∈ ks) →
      ((ks.map (fun c => l.filter (fun d => d.cls == c))).flatten).Perm l := by
  intro ks
  induction ks with
  | nil =>
      intro l _ hC
      cases l with
      | nil => simp
      | cons d rest => exact absurd (hC d (by simp)) (List.not_mem_nil _)
  | cons k ks ih =>
      intro l hN hC
      have hknot : k ∉ ks := (List.nodup_cons.1 hN).1
      have hmap :
          ks.map (fun c => l.filter (fun d => d.cls == c)) =
          ks.map (fun c =>
            (l.filter (fun d => !(d.cls == k))).filter (fun d => d.cls == c)) := by
        refine List.map_congr_left ?_
        intro c hc
        have hck : c ≠ k := fun h => hknot (h ▸ hc)
        rw [List.filter_filter]
        refine (List.filter_congr ?_).symm
        intro d _
        by_cases hdc : d.cls = c
        · simp [hdc, hck]
        · simp [hdc]
      simp only [List.map_cons, List.flatten_cons, hmap]
      have hrec :
          ((ks.map (fun c =>
            (l.filter (fun d => !(d.cls == k))).filter
              (fun d => d.cls == c))).flatten).Perm
            (l.filter (fun d => !(d.cls == k))) := by
        refine ih _ (List.nodup_cons.1 hN).2 ?_
        intro d hd
        have hdl := List.mem_of_mem_filter hd
        have hdk := List.of_mem_filter hd
        have := hC d hdl
        simp only [List.mem_cons] at this
        rcases this with h | h
        · simp [h] at hdk
        · exact h
      exact ((List.Perm.append_left _ hrec).trans
        (List.filter_append_perm (fun d => d.cls == k) l))

lemma forall2_perm_map {α : Type} (l : List α) (f g : α → List Det)
    (h : ∀ a ∈ l, (f a).Perm (g a)) :
    List.Forall₂ List.Perm (l.map f) (l.map g) := by
  induction l with
  | nil => simp
  | cons a l ih =>
      simp only [List.map_cons]
      exact List.Forall₂.cons (h a (by simp)) (ih (fun b hb => h b (by simp [hb])))

lemma flatten_perm_of_forall2 :
    ∀ {l1 l2 : List (List Det)}, List.Forall₂ List.Perm l1 l2 →
      l1.flatten.Perm l2.flatten := by
  intro l1 l2 h
  induction h with
  | nil => simp
  | cons h _ ih => simpa using h.append ih

/-! ### C4: the scheduler scenario fov=40, overlap=0.5, pitch −75..75 -/

set_option maxRecDepth 10000 in
unseal Rat.add Rat.mul Rat.inv Rat.sub in
/-- C4 (counterexample): with fov=40, overlap=0.5, pitchMin=−75,
pitchMax=75 the pitch list is exactly −75,−55,…,65; the boundary value
75 claimed to be admitted by the inclusive epsilon is NOT enumerated
(75 is not of the form −75 + 20k, so the epsilon admits nothing). -/
theorem C4_pitch75_counterexample :
    pitchVals (-75) 75 (stepOf 40 (1/2)) = [-75, -55, -35, -15, 5, 25, 45, 65]
    ∧ (75 : ℚ) ∉ pitchVals (-75) 75 (stepOf 40 (1/2)) := by
  constructor
  · decide
  · decide

set_option maxRecDepth 10000 in
unseal Rat.add Rat.mul Rat.inv Rat.sub in
/-- C4 (amended): fov=40, overlap=0.5 gives step 20; the yaw values are
exactly 0,20,…,340 (18 entries, 360 excluded); the pitch values for
pitchMin=−75, pitchMax=75 are exactly −75,−55,…,65 (8 entries), without
the boundary value 75. -/
theorem C4_schedule_amended :
    stepOf 40 (1/2) = 20
    ∧ yawVals (stepOf 40 (1/2)) =
        [0, 20, 40, 60, 80, 100, 120, 140, 160, 180, 200, 220, 240, 260,
         280, 300, 320, 340]
    ∧ (yawVals (stepOf 40 (1/2))).length = 18
    ∧ pitchVals (-75) 75 (stepOf 40 (1/2)) =
        [-75, -55, -35, -15, 5, 25, 45, 65]
    ∧ (pitchVals (-75) 75 (stepOf 40 (1/2))).length = 8 := by
  refine ⟨by decide, by decide, by decide, by decide, by decide⟩

/-! ### C3: the two merger phases do not share one IoU convention -/

set_option maxRecDepth 10000 in
unseal Rat.add Rat.mul Rat.inv Rat.sub in
/-- C3 (counterexample): on the box (0,0,1,1) the WBF helper `_iou`
yields 1/(1+1e-6) (exclusive areas), not the pixel-inclusive
4/(4+1e-6) that the claim says both phases use; the NMS IoU does
follow the pixel-inclusive convention on that input. -/
theorem C3_iou_convention_counterexample :
    _iou (Det.mk 0 0 1 1 0 1) (Det.mk 0 0 1 1 0 1) ≠
      specInclusiveIoU (Det.mk 0 0 1 1 0 1) (Det.mk 0 0 1 1 0 1)
    ∧ nmsIou (Det.mk 0 0 1 1 0 1) (Det.mk 0 0 1 1 0 1) =
      specInclusiveIoU (Det.mk 0 0 1 1 0 1) (Det.mk 0 0 1 1 0 1) := by
  constructor
  · decide
  · decide

set_option maxRecDepth 10000 in
unseal Rat.add Rat.mul Rat.inv Rat.sub in
lemma iou_ne_example :
    _iou (Det.mk 0 0 1 1 0 1) (Det.mk 0 0 1 1 0 1) ≠
      nmsIou (Det.mk 0 0 1 1 0 1) (Det.mk 0 0 1 1 0 1) := by
  decide

/-- C3 (amended): the NMS phase computes IoU with the pixel-inclusive
areas and the epsilon-floored denominator exactly as specified, and the
denominator of the WBF helper is also floored by the same epsilon with
zero-area boxes yielding IoU 0; but the WBF phase uses exclusive areas
`(x2-x1)(y2-y1)` floored at 0, so the two phases do not compute IoU the
same way. -/
theorem C3_iou_amended :
    (∀ b1 b2 : Det, nmsIou b1 b2 = specInclusiveIoU b1 b2)
    ∧ (∀ b1 b2 : Det, areaW b1 = 0 → _iou b1 b2 = 0)
    ∧ ¬(∀ b1 b2 : Det, _iou b1 b2 = nmsIou b1 b2) := by
  refine ⟨fun b1 b2 => rfl, ?_, ?_⟩
  · intro b1 b2 h
    have hW := interW_le_areaW_left b1 b2
    have h0 := interW_nonneg b1 b2
    have hi : interW b1 b2 = 0 := le_antisymm (h ▸ hW) h0
    unfold _iou
    rw [hi]
    by_cases hd : 0 < areaW b1 + areaW b2 - 0 + 1/1000000
    · rw [if_pos hd, zero_div]
    · rw [if_neg hd]
  · intro hall
    exact iou_ne_example (hall (Det.mk 0 0 1 1 0 1) (Det.mk 0 0 1 1 0 1))

set_option maxRecDepth 10000 in
unseal Rat.add Rat.mul Rat.inv Rat.sub in
lemma areaW_zero_example : areaW (Det.mk 2 3 2 9 0 1) = 0 := by decide

/-- C3 (witness): the amended convention facts at concrete boxes. -/
theorem C3_iou_amended_witness :
    nmsIou (Det.mk 0 0 1 1 0 1) (Det.mk 0 0 1 1 0 1) =
      specInclusiveIoU (Det.mk 0 0 1 1 0 1) (Det.mk 0 0 1 1 0 1)
    ∧ _iou (Det.mk 2 3 2 9 0 1) (Det.mk 0 0 1 1 0 1) = 0 :=
  ⟨C3_iou_amended.1 (Det.mk 0 0 1 1 0 1) (Det.mk 0 0 1 1 0 1),
   C3_iou_amended.2.1 (Det.mk 2 3 2 9 0 1) (Det.mk 0 0 1 1 0 1)
     areaW_zero_example⟩

/-! ### C8: NMS is classwise -/

set_option maxRecDepth 10000 in
unseal Rat.add Rat.mul Rat.inv Rat.sub in
/-- C8: for every input and threshold, no two same-class boxes kept by
`nms` have IoU ≥ threshold; every dropped box was suppressed by a kept
box of the SAME class (so different classes never suppress each other);
and two perfectly overlapping boxes of different classes are both
retained regardless of their IoU (concrete instance). -/
theorem C8_nms_classwise (t : ℚ) (boxes : List Det) :
    (nms t boxes).Pairwise (fun a b => a.cls = b.cls → nmsIou a b < t)
    ∧ (∀ d ∈ boxes, d ∉ nms t boxes →
        ∃ k ∈ nms t boxes, k.cls = d.cls ∧ t ≤ nmsIou k d)
    ∧ nms (1/2) [Det.mk 0 0 10 10 0 (9/10), Det.mk 0 0 10 10 1 (8/10)] =
        [Det.mk 0 0 10 10 0 (9/10), Det.mk 0 0 10 10 1 (8/10)]
    ∧ (Det.mk 0 0 10 10 0 (9/10)).cls ≠ (Det.mk 0 0 10 10 1 (8/10)).cls
    ∧ (1/2 : ℚ) ≤ nmsIou (Det.mk 0 0 10 10 0 (9/10)) (Det.mk 0 0 10 10 1 (8/10)) := by
  refine ⟨?_, ?_, by decide, by decide, by decide⟩
  · unfold nms
    by_cases hb : boxes = []
    · simp [hb]
    · rw [if_neg hb]
      exact nmsLoop_pairwise t boxes.length (sortByScoreDesc boxes)
  · intro d hd hout
    unfold nms at hout ⊢
    by_cases hb : boxes = []
    · subst hb; cases hd
    · rw [if_neg hb] at hout ⊢
      have hd' : d ∈ sortByScoreDesc boxes :=
        (sortByScoreDesc_perm boxes).mem_iff.2 hd
      exact nmsLoop_killer t boxes.length (sortByScoreDesc boxes)
        (le_of_eq (sortByScoreDesc_length boxes)) d hd' hout

/-- C8 (witness): the general theorem instantiated at the concrete
two-box cross-class input. -/
theorem C8_nms_classwise_witness :
    (nms (1/2) [Det.mk 0 0 10 10 0 (9/10), Det.mk 0 0 10 10 1 (8/10)]).Pairwise
      (fun a b => a.cls = b.cls → nmsIou a b < (1/2 : ℚ))
    ∧ nms (1/2) [Det.mk 0 0 10 10 0 (9/10), Det.mk 0 0 10 10 1 (8/10)] =
        [Det.mk 0 0 10 10 0 (9/10), Det.mk 0 0 10 10 1 (8/10)] :=
  ⟨(C8_nms_classwise (1/2)
      [Det.mk 0 0 10 10 0 (9/10), Det.mk 0 0 10 10 1 (8/10)]).1,
   (C8_nms_classwise 0 []).2.2.1⟩

/-! ### C9: WBF with threshold 1.0 is the identity up to ordering -/

/-- C9: with a fusion threshold of (at least) 1.0, `wbf_merge` clusters
nothing: its output is a permutation of the input — the same number of
boxes, each with coordinates, class and score unchanged. -/
theorem C9_wbf_identity (t : ℚ) (dets : List Det) (ht : 1 ≤ t) :
    (wbf_merge t dets).Perm dets
    ∧ (wbf_merge t dets).length = dets.length := by
  have hperm : (wbf_merge t dets).Perm dets := by
    unfold wbf_merge
    by_cases hd : dets = []
    · simp [hd]
    · rw [if_neg hd]
      have hmap :
          (keysOf dets).map (fun c =>
            clusterLoop t c (dets.filter (fun d => d.cls == c)).length
              (sortByScoreDesc (dets.filter (fun d => d.cls == c)))) =
          (keysOf dets).map (fun c =>
            sortByScoreDesc (dets.filter (fun d => d.cls == c))) := by
        refine List.map_congr_left ?_
        intro c _
        exact clusterLoop_id t ht c _ _
          (le_of_eq (sortByScoreDesc_length _))
      rw [hmap]
      refine (flatten_perm_of_forall2
        (forall2_perm_map (keysOf dets) _ _
          (fun c _ => sortByScoreDesc_perm _))).trans ?_
      refine join_filter_perm (keysOf dets) dets (nodup_firstKeys _) ?_
      intro d hd
      exact mem_firstKeys.2 (List.mem_map_of_mem Det.cls hd)
  exact ⟨hperm, hperm.length_eq⟩

/-- C9 (witness): the identity behaviour at threshold exactly 1 on a
concrete two-box input. -/
theorem C9_wbf_identity_witness :
    (1 : ℚ) ≤ 1
    ∧ (wbf_merge 1 [Det.mk 0 0 4 4 0 (9/10), Det.mk 1 1 5 5 0 (8/10)]).Perm
        [Det.mk 0 0 4 4 0 (9/10), Det.mk 1 1 5 5 0 (8/10)] :=
  ⟨le_refl 1,
   (C9_wbf_identity 1 [Det.mk 0 0 4 4 0 (9/10), Det.mk 1 1 5 5 0 (8/10)]
      (le_refl 1)).1⟩

/-! ### Helper lemmas about the back-projector -/

lemma persp_eq_backProject (m : SampleMap) (box : ℚ × ℚ × ℚ × ℚ)
    (seamW : ℤ) (x1 y1 x2 y2 : ℤ) (hclip : clipBox m box = (x1, y1, x2, y2))
    (hx : x1 < x2) (hy : y1 < y2) :
    perspective_box_to_equirect m box seamW =
      [backProjectBox m x1 y1 x2 y2 seamW] := by
  unfold perspective_box_to_equirect
  rw [hclip]
  dsimp only
  rw [if_neg]
  push_neg
  exact ⟨hx, hy⟩

lemma persp_empty (m : SampleMap) (box : ℚ × ℚ × ℚ × ℚ)
    (seamW : ℤ) (x1 y1 x2 y2 : ℤ) (hclip : clipBox m box = (x1, y1, x2, y2))
    (hdeg : x2 ≤ x1 ∨ y2 ≤ y1) :
    perspective_box_to_equirect m box seamW = [] := by
  unfold perspective_box_to_equirect
  rw [hclip]
  dsimp only
  rw [if_pos hdeg]

lemma minBySpan_pair (a b : ℚ × ℚ × List ℚ) :
    minBySpan [a, b] = if b.1 < a.1 then b else a := rfl

/-- The adjusted-x list of `backProjectBox`, named for the concrete
scenario lemmas. -/
def xAdjOf (m : SampleMap) (x1 y1 x2 y2 : ℤ) (seamW : ℤ) : List ℚ :=
  (minBySpan (spanChoices (sampleXs m x1 y1 x2 y2) seamW)).2.2.map
    (fun a => fracPart a * (seamW : ℚ))

lemma backProjectBox_eq (m : SampleMap) (x1 y1 x2 y2 seamW : ℤ) :
    backProjectBox m x1 y1 x2 y2 seamW =
      (max 0 (min (lmin (xAdjOf m x1 y1 x2 y2 seamW)) ((seamW : ℚ) - 1)),
       max 0 (lmin (sampleYs m x1 y1 x2 y2)),
       max 0 (min (lmax (xAdjOf m x1 y1 x2 y2 seamW)) ((seamW : ℚ) - 1)),
       max 0 (lmax (sampleYs m x1 y1 x2 y2))) := rfl

/-! ### C1: coordinates after back-projection -/

/-- The sampling map of the C1 counterexample, for an equirect image of
width W = 200 and height H = 100: every sample maps to source pixel
(5, 100).  The bottom border value `map_y = H` is exactly what
`equirect_to_perspective` produces for a ray pointing at the south pole
(`map_y = (0.5 - lat/pi) * h` with `lat = -pi/2`), so the map's values
lie within the projector's range `[0,W] × [0,H]`. -/
def cMapC1 : SampleMap := ⟨4, 4, fun _ _ => 5, fun _ _ => 100⟩

set_option maxRecDepth 40000 in
unseal Rat.add Rat.mul Rat.inv Rat.sub in
lemma cMapC1_clip : clipBox cMapC1 (0, 0, 3, 3) = (0, 0, 3, 3) := by decide

set_option maxRecDepth 40000 in
unseal Rat.add Rat.mul Rat.inv Rat.sub in
lemma cMapC1_s0_all :
    ∀ a ∈ shiftedAngles (sampleXs cMapC1 0 0 3 3) 200 0, a = 1/40 := by decide

set_option maxRecDepth 40000 in
unseal Rat.add Rat.mul Rat.inv Rat.sub in
lemma cMapC1_s0_mem :
    (1/40 : ℚ) ∈ shiftedAngles (sampleXs cMapC1 0 0 3 3) 200 0 := by decide

set_option maxRecDepth 40000 in
unseal Rat.add Rat.mul Rat.inv Rat.sub in
lemma cMapC1_s5_all :
    ∀ a ∈ shiftedAngles (sampleXs cMapC1 0 0 3 3) 200 (1/2), a = 21/40 := by
  decide

set_option maxRecDepth 40000 in
unseal Rat.add Rat.mul Rat.inv Rat.sub in
lemma cMapC1_s5_mem :
    (21/40 : ℚ) ∈ shiftedAngles (sampleXs cMapC1 0 0 3 3) 200 (1/2) := by decide

set_option maxRecDepth 40000 in
unseal Rat.add Rat.mul Rat.inv Rat.sub in
lemma cMapC1_ys_all : ∀ y ∈ sampleYs cMapC1 0 0 3 3, y = 100 := by decide

set_option maxRecDepth 40000 in
unseal Rat.add Rat.mul Rat.inv Rat.sub in
lemma cMapC1_ys_mem : (100 : ℚ) ∈ sampleYs cMapC1 0 0 3 3 := by decide

lemma cMapC1_best :
    (minBySpan (spanChoices (sampleXs cMapC1 0 0 3 3) 200)).2.2 =
      shiftedAngles (sampleXs cMapC1 0 0 3 3) 200 0 := by
  have h0min : lmin (shiftedAngles (sampleXs cMapC1 0 0 3 3) 200 0) = 1/40 :=
    lmin_eq cMapC1_s0_mem (fun x hx => le_of_eq (cMapC1_s0_all x hx).symm)
  have h0max : lmax (shiftedAngles (sampleXs cMapC1 0 0 3 3) 200 0) = 1/40 :=
    lmax_eq cMapC1_s0_mem (fun x hx => le_of_eq (cMapC1_s0_all x hx))
  have h5min : lmin (shiftedAngles (sampleXs cMapC1 0 0 3 3) 200 (1/2)) = 21/40 :=
    lmin_eq cMapC1_s5_mem (fun x hx => le_of_eq (cMapC1_s5_all x hx).symm)
  have h5max : lmax (shiftedAngles (sampleXs cMapC1 0 0 3 3) 200 (1/2)) = 21/40 :=
    lmax_eq cMapC1_s5_mem (fun x hx => le_of_eq (cMapC1_s5_all x hx))
  show (minBySpan
    [(spanOf (shiftedAngles (sampleXs cMapC1 0 0 3 3) 200 0), 0,
      shiftedAngles (sampleXs cMapC1 0 0 3 3) 200 0),
     (spanOf (shiftedAngles (sampleXs cMapC1 0 0 3 3) 200 (1/2)), 1/2,
      shiftedAngles (sampleXs cMapC1 0 0 3 3) 200 (1/2))]).2.2 = _
  rw [minBySpan_pair, if_neg]
  simp only [spanOf, h0min, h0max, h5min, h5max]
  norm_num

lemma cMapC1_backProject :
    backProjectBox cMapC1 0 0 3 3 200 = (5, 100, 5, 100) := by
  have hxall : ∀ v ∈ xAdjOf cMapC1 0 0 3 3 200, v = 5 := by
    intro v hv
    unfold xAdjOf at hv
    rw [cMapC1_best] at hv
    obtain ⟨a, ha, rfl⟩ := List.mem_map.1 hv
    rw [cMapC1_s0_all a ha]
    norm_num [fracPart]
  have hxmem : (5 : ℚ) ∈ xAdjOf cMapC1 0 0 3 3 200 := by
    unfold xAdjOf
    rw [cMapC1_best]
    refine List.mem_map.2 ⟨1/40, cMapC1_s0_mem, ?_⟩
    norm_num [fracPart]
  have hxmin : lmin (xAdjOf cMapC1 0 0 3 3 200) = 5 :=
    lmin_eq hxmem (fun v hv => le_of_eq (hxall v hv).symm)
  have hxmax : lmax (xAdjOf cMapC1 0 0 3 3 200) = 5 :=
    lmax_eq hxmem (fun v hv => le_of_eq (hxall v hv))
  have hymin : lmin (sampleYs cMapC1 0 0 3 3) = 100 :=
    lmin_eq cMapC1_ys_mem (fun v hv => le_of_eq (cMapC1_ys_all v hv).symm)
  have hymax : lmax (sampleYs cMapC1 0 0 3 3) = 100 :=
    lmax_eq cMapC1_ys_mem (fun v hv => le_of_eq (cMapC1_ys_all v hv))
  rw [backProjectBox_eq, hxmin, hxmax, hymin, hymax]
  norm_num

/-- C1 (counterexample): for the width-200, height-100 sampling map
`cMapC1` (all samples at source pixel (5, 100), within the projector's
value range), the returned box has y = 100 > H - 1 = 99: the y
coordinates are NOT clamped into [0, H-1] — the source clamps y only
from below. -/
theorem C1_y_not_clamped_counterexample :
    perspective_box_to_equirect cMapC1 (0, 0, 3, 3) 200 = [(5, 100, 5, 100)]
    ∧ ¬((100 : ℚ) ≤ 100 - 1) := by
  constructor
  · rw [persp_eq_backProject cMapC1 (0, 0, 3, 3) 200 0 0 3 3 cMapC1_clip
      (by norm_num) (by norm_num)]
    rw [cMapC1_backProject]
  · norm_num

/-- C1 (amended): every box returned by `perspective_box_to_equirect`
has both x coordinates clamped into [0, W-1] (where W = seamW), and
both y coordinates are at least 0 — but y has no upper clamp, so it can
exceed H-1 (see the counterexample). -/
theorem C1_clamped_amended (m : SampleMap) (box : ℚ × ℚ × ℚ × ℚ)
    (seamW : ℤ) (hW : 1 ≤ seamW) :
    ∀ b ∈ perspective_box_to_equirect m box seamW,
      (0 ≤ b.1 ∧ b.1 ≤ (seamW : ℚ) - 1)
      ∧ (0 ≤ b.2.2.1 ∧ b.2.2.1 ≤ (seamW : ℚ) - 1)
      ∧ 0 ≤ b.2.1 ∧ 0 ≤ b.2.2.2 := by
  intro b hb
  have hW' : (0 : ℚ) ≤ (seamW : ℚ) - 1 := by
    have h1 : (1 : ℚ) ≤ (seamW : ℚ) := by exact_mod_cast hW
    linarith
  unfold perspective_box_to_equirect at hb
  rcases hcb : clipBox m box with ⟨x1, y1, x2, y2⟩
  rw [hcb] at hb
  dsimp only at hb
  by_cases hdeg : x2 ≤ x1 ∨ y2 ≤ y1
  · rw [if_pos hdeg] at hb; cases hb
  · rw [if_neg hdeg] at hb
    have hbe : b = backProjectBox m x1 y1 x2 y2 seamW := by
      simpa using hb
    subst hbe
    rw [backProjectBox_eq]
    exact ⟨⟨le_max_left _ _, max_le hW' (min_le_right _ _)⟩,
      ⟨le_max_left _ _, max_le hW' (min_le_right _ _)⟩,
      le_max_left _ _, le_max_left _ _⟩

/-- C1 (witness): the amended clamping facts at the concrete map. -/
theorem C1_clamped_amended_witness :
    ((0 : ℚ) ≤ 5 ∧ (5 : ℚ) ≤ (200 : ℚ) - 1)
    ∧ ((0 : ℚ) ≤ 5 ∧ (5 : ℚ) ≤ (200 : ℚ) - 1)
    ∧ (0 : ℚ) ≤ 100 ∧ (0 : ℚ) ≤ 100 := by
  have h := C1_clamped_amended cMapC1 (0, 0, 3, 3) 200 (by norm_num)
    (5, 100, 5, 100)
  have hm : ((5 : ℚ), (100 : ℚ), (5 : ℚ), (100 : ℚ)) ∈
      perspective_box_to_equirect cMapC1 (0, 0, 3, 3) 200 := by
    rw [persp_eq_backProject cMapC1 (0, 0, 3, 3) 200 0 0 3 3 cMapC1_clip
      (by norm_num) (by norm_num), cMapC1_backProject]
    simp
  simpa using h hm

/-! ### C2: a degenerate back-projected box reaches the merger -/

/-- Sampling map for the C2 counterexample: an equirect image of width
W = 200; all x samples fall inside the last source pixel column
[199, 200) (a small detection box near the right image edge), y samples
rows 10..13. -/
def mC2 : SampleMap :=
  ⟨4, 4, fun i j => 199 + ((4 * i + j : ℕ) : ℚ) / 1000, fun i _ => 10 + (i : ℚ)⟩

/-- Config of the C2 scenario: a single 720-degree fov tile gives a
one-viewport schedule. -/
def cfgC2 : Config := ⟨[720], 1/2, 0, 0, 1/2, 1/4⟩

set_option maxRecDepth 40000 in
unseal Rat.add Rat.mul Rat.inv Rat.sub in
lemma mC2_clip : clipBox mC2 (0, 0, 3, 3) = (0, 0, 3, 3) := by decide

set_option maxRecDepth 40000 in
unseal Rat.add Rat.mul Rat.inv Rat.sub in
lemma mC2_s0_bounds :
    ∀ a ∈ shiftedAngles (sampleXs mC2 0 0 3 3) 200 0,
      199/200 ≤ a ∧ a ≤ 39803/40000 := by decide

set_option maxRecDepth 40000 in
unseal Rat.add Rat.mul Rat.inv Rat.sub in
lemma mC2_s0_mem_min :
    (199/200 : ℚ) ∈ shiftedAngles (sampleXs mC2 0 0 3 3) 200 0 := by decide

set_option maxRecDepth 40000 in
unseal Rat.add Rat.mul Rat.inv Rat.sub in
lemma mC2_s0_mem_max :
    (39803/40000 : ℚ) ∈ shiftedAngles (sampleXs mC2 0 0 3 3) 200 0 := by decide

set_option maxRecDepth 40000 in
unseal Rat.add Rat.mul Rat.inv Rat.sub in
lemma mC2_s5_bounds :
    ∀ a ∈ shiftedAngles (sampleXs mC2 0 0 3 3) 200 (1/2),
      99/200 ≤ a ∧ a ≤ 19803/40000 := by decide

set_option maxRecDepth 40000 in
unseal Rat.add Rat.mul Rat.inv Rat.sub in
lemma mC2_s5_mem_min :
    (99/200 : ℚ) ∈ shiftedAngles (sampleXs mC2 0 0 3 3) 200 (1/2) := by decide

set_option maxRecDepth 40000 in
unseal Rat.add Rat.mul Rat.inv Rat.sub in
lemma mC2_s5_mem_max :
    (19803/40000 : ℚ) ∈ shiftedAngles (sampleXs mC2 0 0 3 3) 200 (1/2) := by
  decide

set_option maxRecDepth 40000 in
unseal Rat.add Rat.mul Rat.inv Rat.sub in
lemma mC2_ys_bounds : ∀ y ∈ sampleYs mC2 0 0 3 3, 10 ≤ y ∧ y ≤ 13 := by decide

set_option maxRecDepth 40000 in
unseal Rat.add Rat.mul Rat.inv Rat.sub in
lemma mC2_ys_mem_min : (10 : ℚ) ∈ sampleYs mC2 0 0 3 3 := by decide

set_option maxRecDepth 40000 in
unseal Rat.add Rat.mul Rat.inv Rat.sub in
lemma mC2_ys_mem_max : (13 : ℚ) ∈ sampleYs mC2 0 0 3 3 := by decide

/-- Both candidate shifts have the same span here (nothing straddles
the seam), so the source's `min` picks the first, unshifted one. -/
lemma mC2_best :
    (minBySpan (spanChoices (sampleXs mC2 0 0 3 3) 200)).2.2 =
      shiftedAngles (sampleXs mC2 0 0 3 3) 200 0 := by
  have h0min : lmin (shiftedAngles (sampleXs mC2 0 0 3 3) 200 0) = 199/200 :=
    lmin_eq mC2_s0_mem_min (fun x hx => (mC2_s0_bounds x hx).1)
  have h0max : lmax (shiftedAngles (sampleXs mC2 0 0 3 3) 200 0) = 39803/40000 :=
    lmax_eq mC2_s0_mem_max (fun x hx => (mC2_s0_bounds x hx).2)
  have h5min : lmin (shiftedAngles (sampleXs mC2 0 0 3 3) 200 (1/2)) = 99/200 :=
    lmin_eq mC2_s5_mem_min (fun x hx => (mC2_s5_bounds x hx).1)
  have h5max :
      lmax (shiftedAngles (sampleXs mC2 0 0 3 3) 200 (1/2)) = 19803/40000 :=
    lmax_eq mC2_s5_mem_max (fun x hx => (mC2_s5_bounds x hx).2)
  show (minBySpan
    [(spanOf (shiftedAngles (sampleXs mC2 0 0 3 3) 200 0), 0,
      shiftedAngles (sampleXs mC2 0 0 3 3) 200 0),
     (spanOf (shiftedAngles (sampleXs mC2 0 0 3 3) 200 (1/2)), 1/2,
      shiftedAngles (sampleXs mC2 0 0 3 3) 200 (1/2))]).2.2 = _
  rw [minBySpan_pair, if_neg]
  simp only [spanOf, h0min, h0max, h5min, h5max]
  norm_num

lemma mC2_xadj_all : ∀ v ∈ xAdjOf mC2 0 0 3 3 200, 199 ≤ v := by
  intro v hv
  unfold xAdjOf at hv
  rw [mC2_best] at hv
  obtain ⟨a, ha, rfl⟩ := List.mem_map.1 hv
  obtain ⟨h1, h2⟩ := mC2_s0_bounds a ha
  have hfl : ⌊a⌋ = 0 := by
    rw [Int.floor_eq_zero_iff]
    constructor
    · linarith
    · calc a ≤ 39803/40000 := h2
        _ < 1 := by norm_num
  have hfr : fracPart a = a := by simp [fracPart, hfl]
  rw [hfr]
  have := mul_le_mul_of_nonneg_right h1 (by norm_num : (0:ℚ) ≤ (200:ℤ))
  calc (199 : ℚ) = 199/200 * ((200:ℤ):ℚ) := by norm_num
    _ ≤ a * ((200:ℤ):ℚ) := this

set_option maxRecDepth 40000 in
unseal Rat.add Rat.mul Rat.inv Rat.sub in
lemma mC2_fr199 : fracPart (199/200) * ((200:ℤ):ℚ) = 199 := by decide

lemma mC2_xadj_mem : (199 : ℚ) ∈ xAdjOf mC2 0 0 3 3 200 := by
  unfold xAdjOf
  rw [mC2_best]
  exact List.mem_map.2 ⟨199/200, mC2_s0_mem_min, mC2_fr199⟩

lemma mC2_backProject : backProjectBox mC2 0 0 3 3 200 = (199, 10, 199, 13) := by
  have hxmin : lmin (xAdjOf mC2 0 0 3 3 200) = 199 :=
    lmin_eq mC2_xadj_mem mC2_xadj_all
  have hxmax : (199 : ℚ) ≤ lmax (xAdjOf mC2 0 0 3 3 200) :=
    le_lmax_of_mem mC2_xadj_mem
  have hymin : lmin (sampleYs mC2 0 0 3 3) = 10 :=
    lmin_eq mC2_ys_mem_min (fun y hy => (mC2_ys_bounds y hy).1)
  have hymax : lmax (sampleYs mC2 0 0 3 3) = 13 :=
    lmax_eq mC2_ys_mem_max (fun y hy => (mC2_ys_bounds y hy).2)
  have hcast : ((200:ℤ):ℚ) - 1 = 199 := by norm_num
  rw [backProjectBox_eq, hxmin, hymin, hymax, hcast, min_self,
    min_eq_right hxmax]
  norm_num

lemma mC2_persp :
    perspective_box_to_equirect mC2 (0, 0, 3, 3) 200 = [(199, 10, 199, 13)] := by
  rw [persp_eq_backProject mC2 (0, 0, 3, 3) 200 0 0 3 3 mC2_clip
    (by norm_num) (by norm_num), mC2_backProject]

set_option maxRecDepth 40000 in
unseal Rat.add Rat.mul Rat.inv Rat.sub in
lemma cfgC2_sched : schedule cfgC2 = [(720, 0, 0)] := by decide

/-- C2 (counterexample): in a run of the per-image pipeline with one
scheduled viewport, the back-projector emits the box
(199, 10, 199, 13) with x2 = x1 — degenerate — and `run_detection`
appends it to `all_dets` with no check, so the list handed to
`wbf_merge` contains a degenerate box. -/
theorem C2_degenerate_reaches_merger_counterexample :
    accumulatedDets (fun _ => mC2)
        (fun _ => Except.ok [RawDet.mk (0, 0, 3, 3) 0 (9/10)]) 200 cfgC2
      = Except.ok [Det.mk 199 10 199 13 0 (9/10)]
    ∧ (Det.mk 199 10 199 13 0 (9/10)).x2 ≤ (Det.mk 199 10 199 13 0 (9/10)).x1 := by
  constructor
  · unfold accumulatedDets
    rw [cfgC2_sched]
    have hvd : viewportDets mC2 200 cfgC2.scoreThresh
        [RawDet.mk (0, 0, 3, 3) 0 (9/10)] = [Det.mk 199 10 199 13 0 (9/10)] := by
      unfold viewportDets
      have hfil : [RawDet.mk (0, 0, 3, 3) 0 (9/10)].filter
          (fun r => !decide (r.score < cfgC2.scoreThresh)) =
          [RawDet.mk (0, 0, 3, 3) 0 (9/10)] := by
        rw [List.filter_eq_self]
        intro r hr
        simp only [List.mem_singleton] at hr
        subst hr
        norm_num [cfgC2]
      rw [hfil]
      simp [mC2_persp]
    simp [List.foldlM, hvd]
  · exact le_refl _

/-- C2 (amended): a degenerate box coming from the detector is indeed
dropped — when the rounded, clipped input box has x2 ≤ x1 or y2 ≤ y1
the back-projector returns no box at all.  (The unfixed half of the
original claim: the box PRODUCED by the back-projector is never
re-checked; see the counterexample.) -/
theorem C2_input_drop_amended (m : SampleMap) (box : ℚ × ℚ × ℚ × ℚ)
    (seamW : ℤ) (x1 y1 x2 y2 : ℤ) (hclip : clipBox m box = (x1, y1, x2, y2))
    (hdeg : x2 ≤ x1 ∨ y2 ≤ y1) :
    perspective_box_to_equirect m box seamW = [] :=
  persp_empty m box seamW x1 y1 x2 y2 hclip hdeg

set_option maxRecDepth 40000 in
unseal Rat.add Rat.mul Rat.inv Rat.sub in
/-- C2 (witness): a zero-width detector box is dropped. -/
theorem C2_input_drop_amended_witness :
    perspective_box_to_equirect mC2 (2, 0, 2, 3) 200 = [] :=
  C2_input_drop_amended mC2 (2, 0, 2, 3) 200 2 0 2 3 (by decide)
    (by decide)

/-! ### C7 and C10: seam handling by minimal-span phase shift -/

/-- Sampling map of the seam scenario: an equirect image of width
W = 3600; the box perimeter samples land at source x = 10 (left of the
seam) and x = 3590 (right of the seam), all at y = 50. -/
def seamMap : SampleMap :=
  ⟨2, 2, fun _ j => if j = 0 then 10 else 3590, fun _ _ => 50⟩

set_option maxRecDepth 40000 in
unseal Rat.add Rat.mul Rat.inv Rat.sub in
lemma seamMap_clip : clipBox seamMap (0, 0, 1, 1) = (0, 0, 1, 1) := by decide

set_option maxRecDepth 40000 in
unseal Rat.add Rat.mul Rat.inv Rat.sub in
lemma seamMap_s0_bounds :
    ∀ a ∈ shiftedAngles (sampleXs seamMap 0 0 1 1) 3600 0,
      1/360 ≤ a ∧ a ≤ 359/360 := by decide

set_option maxRecDepth 40000 in
unseal Rat.add Rat.mul Rat.inv Rat.sub in
lemma seamMap_s0_mem_min :
    (1/360 : ℚ) ∈ shiftedAngles (sampleXs seamMap 0 0 1 1) 3600 0 := by decide

set_option maxRecDepth 40000 in
unseal Rat.add Rat.mul Rat.inv Rat.sub in
lemma seamMap_s0_mem_max :
    (359/360 : ℚ) ∈ shiftedAngles (sampleXs seamMap 0 0 1 1) 3600 0 := by decide

set_option maxRecDepth 40000 in
unseal Rat.add Rat.mul Rat.inv Rat.sub in
lemma seamMap_s5_bounds :
    ∀ a ∈ shiftedAngles (sampleXs seamMap 0 0 1 1) 3600 (1/2),
      179/360 ≤ a ∧ a ≤ 181/360 := by decide

set_option maxRecDepth 40000 in
unseal Rat.add Rat.mul Rat.inv Rat.sub in
lemma seamMap_s5_mem_min :
    (179/360 : ℚ) ∈ shiftedAngles (sampleXs seamMap 0 0 1 1) 3600 (1/2) := by
  decide

set_option maxRecDepth 40000 in
unseal Rat.add Rat.mul Rat.inv Rat.sub in
lemma seamMap_s5_mem_max :
    (181/360 : ℚ) ∈ shiftedAngles (sampleXs seamMap 0 0 1 1) 3600 (1/2) := by
  decide

set_option maxRecDepth 40000 in
unseal Rat.add Rat.mul Rat.inv Rat.sub in
lemma seamMap_ys_all : ∀ y ∈ sampleYs seamMap 0 0 1 1, y = 50 := by decide

set_option maxRecDepth 40000 in
unseal Rat.add Rat.mul Rat.inv Rat.sub in
lemma seamMap_ys_mem : (50 : ℚ) ∈ sampleYs seamMap 0 0 1 1 := by decide

lemma seamMap_span0 :
    spanOf (shiftedAngles (sampleXs seamMap 0 0 1 1) 3600 0) = 179/180 := by
  unfold spanOf
  rw [lmin_eq seamMap_s0_mem_min (fun x hx => (seamMap_s0_bounds x hx).1),
    lmax_eq seamMap_s0_mem_max (fun x hx => (seamMap_s0_bounds x hx).2)]
  norm_num

lemma seamMap_span5 :
    spanOf (shiftedAngles (sampleXs seamMap 0 0 1 1) 3600 (1/2)) = 1/180 := by
  unfold spanOf
  rw [lmin_eq seamMap_s5_mem_min (fun x hx => (seamMap_s5_bounds x hx).1),
    lmax_eq seamMap_s5_mem_max (fun x hx => (seamMap_s5_bounds x hx).2)]
  norm_num

lemma seamMap_span_lt :
    spanOf (shiftedAngles (sampleXs seamMap 0 0 1 1) 3600 (1/2)) <
      spanOf (shiftedAngles (sampleXs seamMap 0 0 1 1) 3600 0) := by
  rw [seamMap_span0, seamMap_span5]
  norm_num

lemma seamMap_best :
    xAdjOf seamMap 0 0 1 1 3600 =
      (shiftedAngles (sampleXs seamMap 0 0 1 1) 3600 (1/2)).map
        (fun a => fracPart a * ((3600 : ℤ) : ℚ)) := by
  unfold xAdjOf
  show ((minBySpan
    [(spanOf (shiftedAngles (sampleXs seamMap 0 0 1 1) 3600 0), 0,
      shiftedAngles (sampleXs seamMap 0 0 1 1) 3600 0),
     (spanOf (shiftedAngles (sampleXs seamMap 0 0 1 1) 3600 (1/2)), 1/2,
      shiftedAngles (sampleXs seamMap 0 0 1 1) 3600 (1/2))]).2.2).map _ = _
  rw [minBySpan_pair, if_pos seamMap_span_lt]

lemma seamMap_xadj_all :
    ∀ v ∈ xAdjOf seamMap 0 0 1 1 3600, 1790 ≤ v ∧ v ≤ 1810 := by
  intro v hv
  rw [seamMap_best] at hv
  obtain ⟨a, ha, rfl⟩ := List.mem_map.1 hv
  obtain ⟨h1, h2⟩ := seamMap_s5_bounds a ha
  have hfl : ⌊a⌋ = 0 := by
    rw [Int.floor_eq_zero_iff]
    constructor
    · linarith
    · calc a ≤ 181/360 := h2
        _ < 1 := by norm_num
  have hfr : fracPart a = a := by simp [fracPart, hfl]
  rw [hfr]
  constructor
  · have := mul_le_mul_of_nonneg_right h1 (by norm_num : (0:ℚ) ≤ ((3600:ℤ):ℚ))
    calc (1790 : ℚ) = 179/360 * ((3600:ℤ):ℚ) := by norm_num
      _ ≤ a * ((3600:ℤ):ℚ) := this
  · have := mul_le_mul_of_nonneg_right h2 (by norm_num : (0:ℚ) ≤ ((3600:ℤ):ℚ))
    calc a * ((3600:ℤ):ℚ) ≤ 181/360 * ((3600:ℤ):ℚ) := this
      _ = 1810 := by norm_num

set_option maxRecDepth 40000 in
unseal Rat.add Rat.mul Rat.inv Rat.sub in
lemma seamMap_fr1790 : fracPart (179/360) * ((3600:ℤ):ℚ) = 1790 := by decide

set_option maxRecDepth 40000 in
unseal Rat.add Rat.mul Rat.inv Rat.sub in
lemma seamMap_fr1810 : fracPart (181/360) * ((3600:ℤ):ℚ) = 1810 := by decide

lemma seamMap_xadj_mem_min : (1790 : ℚ) ∈ xAdjOf seamMap 0 0 1 1 3600 := by
  rw [seamMap_best]
  exact List.mem_map.2 ⟨179/360, seamMap_s5_mem_min, seamMap_fr1790⟩

lemma seamMap_xadj_mem_max : (1810 : ℚ) ∈ xAdjOf seamMap 0 0 1 1 3600 := by
  rw [seamMap_best]
  exact List.mem_map.2 ⟨181/360, seamMap_s5_mem_max, seamMap_fr1810⟩

lemma seamMap_backProject :
    backProjectBox seamMap 0 0 1 1 3600 = (1790, 50, 1810, 50) := by
  have hxmin : lmin (xAdjOf seamMap 0 0 1 1 3600) = 1790 :=
    lmin_eq seamMap_xadj_mem_min (fun v hv => (seamMap_xadj_all v hv).1)
  have hxmax : lmax (xAdjOf seamMap 0 0 1 1 3600) = 1810 :=
    lmax_eq seamMap_xadj_mem_max (fun v hv => (seamMap_xadj_all v hv).2)
  have hymin : lmin (sampleYs seamMap 0 0 1 1) = 50 :=
    lmin_eq seamMap_ys_mem (fun y hy => le_of_eq (seamMap_ys_all y hy).symm)
  have hymax : lmax (sampleYs seamMap 0 0 1 1) = 50 :=
    lmax_eq seamMap_ys_mem (fun y hy => le_of_eq (seamMap_ys_all y hy))
  have hcast : ((3600:ℤ):ℚ) - 1 = 3599 := by norm_num
  rw [backProjectBox_eq, hxmin, hxmax, hymin, hymax, hcast]
  norm_num

lemma seamMap_persp :
    perspective_box_to_equirect seamMap (0, 0, 1, 1) 3600 =
      [(1790, 50, 1810, 50)] := by
  rw [persp_eq_backProject seamMap (0, 0, 1, 1) 3600 0 0 1 1 seamMap_clip
    (by norm_num) (by norm_num), seamMap_backProject]

set_option maxRecDepth 40000 in
unseal Rat.add Rat.mul Rat.inv Rat.sub in
/-- C7: the back-projector normalizes sample x to fractional cycles,
evaluates exactly the two phase shifts {0, 0.5}, and keeps the one with
the smaller max−min span (the unshifted one on ties, as Python's `min`
keeps the first): the selected span is the minimum of the two.  In the
concrete seam scenario (seamW = 3600, samples at x = 10 and x = 3590)
the adjusted span is 20 pixels, not the naive 3580; the full
back-projector on a sampling map realizing that scenario returns the
20-pixel-wide box. -/
theorem C7_seam_shift (xs : List ℚ) (seamW : ℤ) :
    (minBySpan (spanChoices xs seamW) =
      if spanOf (shiftedAngles xs seamW (1/2)) < spanOf (shiftedAngles xs seamW 0)
      then (spanOf (shiftedAngles xs seamW (1/2)), 1/2,
            shiftedAngles xs seamW (1/2))
      else (spanOf (shiftedAngles xs seamW 0), 0, shiftedAngles xs seamW 0))
    ∧ (minBySpan (spanChoices xs seamW)).1 =
        min (spanOf (shiftedAngles xs seamW 0))
          (spanOf (shiftedAngles xs seamW (1/2)))
    ∧ spanOf (shiftedAngles [10, 3590] 3600 0) * 3600 = 3580
    ∧ spanOf (shiftedAngles [10, 3590] 3600 (1/2)) * 3600 = 20
    ∧ (minBySpan (spanChoices [10, 3590] 3600)).1 * 3600 = 20
    ∧ perspective_box_to_equirect seamMap (0, 0, 1, 1) 3600 =
        [(1790, 50, 1810, 50)] := by
  refine ⟨rfl, ?_, by decide, by decide, by decide, seamMap_persp⟩
  show (if spanOf (shiftedAngles xs seamW (1/2)) < spanOf (shiftedAngles xs seamW 0)
      then (spanOf (shiftedAngles xs seamW (1/2)), (1/2 : ℚ),
            shiftedAngles xs seamW (1/2))
      else (spanOf (shiftedAngles xs seamW 0), 0,
            shiftedAngles xs seamW 0)).1 = _
  by_cases h : spanOf (shiftedAngles xs seamW (1/2)) <
      spanOf (shiftedAngles xs seamW 0)
  · rw [if_pos h]
    exact (min_eq_right (le_of_lt h)).symm
  · rw [if_neg h]
    exact (min_eq_left (not_lt.1 h)).symm

/-- C10: whenever the 0.5 phase shift wins strictly (its shifted values
have the smaller span), the returned x bounds are the clamped min and
max of the shifted values `((x/seamW + 0.5) mod 1) * seamW` themselves
— no shift back is applied — and each such shifted value is displaced
from its source sample x by seamW/2 modulo seamW. -/
theorem C10_shift_win_displaced (m : SampleMap) (box : ℚ × ℚ × ℚ × ℚ)
    (seamW : ℤ) (x1 y1 x2 y2 : ℤ)
    (hclip : clipBox m box = (x1, y1, x2, y2))
    (hx : x1 < x2) (hy : y1 < y2) (hW : 0 < seamW)
    (hspan : spanOf (shiftedAngles (sampleXs m x1 y1 x2 y2) seamW (1/2)) <
        spanOf (shiftedAngles (sampleXs m x1 y1 x2 y2) seamW 0)) :
    perspective_box_to_equirect m box seamW =
      [(max 0 (min (lmin ((shiftedAngles (sampleXs m x1 y1 x2 y2) seamW
            (1/2)).map (fun a => fracPart a * (seamW : ℚ))))
          ((seamW : ℚ) - 1)),
        max 0 (lmin (sampleYs m x1 y1 x2 y2)),
        max 0 (min (lmax ((shiftedAngles (sampleXs m x1 y1 x2 y2) seamW
            (1/2)).map (fun a => fracPart a * (seamW : ℚ))))
          ((seamW : ℚ) - 1)),
        max 0 (lmax (sampleYs m x1 y1 x2 y2)))]
    ∧ ∀ x ∈ sampleXs m x1 y1 x2 y2, ∃ k : ℤ,
        fracPart (x / (seamW : ℚ) + 1/2) * (seamW : ℚ) =
          x + (seamW : ℚ)/2 - (k : ℚ) * (seamW : ℚ) := by
  constructor
  · rw [persp_eq_backProject m box seamW x1 y1 x2 y2 hclip hx hy,
      backProjectBox_eq]
    have hbest : xAdjOf m x1 y1 x2 y2 seamW =
        (shiftedAngles (sampleXs m x1 y1 x2 y2) seamW (1/2)).map
          (fun a => fracPart a * (seamW : ℚ)) := by
      unfold xAdjOf
      show ((minBySpan
        [(spanOf (shiftedAngles (sampleXs m x1 y1 x2 y2) seamW 0), 0,
          shiftedAngles (sampleXs m x1 y1 x2 y2) seamW 0),
         (spanOf (shiftedAngles (sampleXs m x1 y1 x2 y2) seamW (1/2)), 1/2,
          shiftedAngles (sampleXs m x1 y1 x2 y2) seamW (1/2))]).2.2).map _ = _
      rw [minBySpan_pair, if_pos hspan]
    rw [hbest]
  · intro x _
    have hWne : ((seamW : ℤ) : ℚ) ≠ 0 := by
      exact_mod_cast ne_of_gt hW
    refine ⟨⌊x / ((seamW : ℤ) : ℚ) + 1/2⌋, ?_⟩
    unfold fracPart
    rw [sub_mul, add_mul, div_mul_cancel₀ x hWne]
    ring

/-- C10 (witness): the displaced-box behaviour at the seam scenario map:
the output x interval is [1790, 1810], displaced by seamW/2 = 1800 from
the sampled source positions {10, 3590}. -/
theorem C10_shift_win_displaced_witness :
    perspective_box_to_equirect seamMap (0, 0, 1, 1) 3600 =
      [(max 0 (min (lmin ((shiftedAngles (sampleXs seamMap 0 0 1 1) 3600
            (1/2)).map (fun a => fracPart a * ((3600 : ℤ) : ℚ))))
          (((3600 : ℤ) : ℚ) - 1)),
        max 0 (lmin (sampleYs seamMap 0 0 1 1)),
        max 0 (min (lmax ((shiftedAngles (sampleXs seamMap 0 0 1 1) 3600
            (1/2)).map (fun a => fracPart a * ((3600 : ℤ) : ℚ))))
          (((3600 : ℤ) : ℚ) - 1)),
        max 0 (lmax (sampleYs seamMap 0 0 1 1)))]
    ∧ ∀ x ∈ sampleXs seamMap 0 0 1 1, ∃ k : ℤ,
        fracPart (x / ((3600 : ℤ) : ℚ) + 1/2) * ((3600 : ℤ) : ℚ) =
          x + ((3600 : ℤ) : ℚ)/2 - (k : ℚ) * ((3600 : ℤ) : ℚ) :=
  C10_shift_win_displaced seamMap (0, 0, 1, 1) 3600 0 0 1 1 seamMap_clip
    (by norm_num) (by norm_num) (by norm_num) seamMap_span_lt

/-! ### C5: a detector failure aborts the whole batch -/

/-- Config of the C5 scenario: fov 180, overlap 0.5, pitch range {0}:
a four-viewport schedule. -/
def cfgC5 : Config := ⟨[180], 1/2, 0, 0, 1/2, 1/4⟩

/-- A detector that raises on every viewport of image 0 and returns no
detections on any other image. -/
def detC5 : ℕ → ℚ × ℚ × ℚ → Except Unit (List RawDet) :=
  fun i _ => if i = 0 then Except.error () else Except.ok []

set_option maxRecDepth 40000 in
unseal Rat.add Rat.mul Rat.inv Rat.sub in
lemma runImage_detC5_fail :
    runImage (fun _ => cMapC1) (detC5 0) 3600 cfgC5 = Except.error () := by rfl

set_option maxRecDepth 40000 in
unseal Rat.add Rat.mul Rat.inv Rat.sub in
/-- C5 (counterexample): with the detector failing on image 0, the
batch over [0, 1] returns the propagated error — image 1 is never
processed and gets no output — although image 1 alone would have
produced its annotated (empty) result. -/
theorem C5_batch_abort_counterexample :
    runDetectionBatch (fun _ => some 3600) (fun _ => cMapC1) detC5 cfgC5 [0, 1]
      = Except.error ()
    ∧ runDetectionBatch (fun _ => some 3600) (fun _ => cMapC1) detC5 cfgC5 [1]
      = Except.ok [(1, [])] := by
  constructor
  · rfl
  · rfl

/-- C5 (amended): an uncaught detector failure while processing the
first image of a batch propagates out of `run_detection` and aborts the
entire batch: no image — current or subsequent — produces output. -/
theorem C5_abort_amended (readImg : ℕ → Option ℤ)
    (proj : ℚ × ℚ × ℚ → SampleMap)
    (det : ℕ → ℚ × ℚ × ℚ → Except Unit (List RawDet)) (cfg : Config)
    (i : ℕ) (rest : List ℕ) (w : ℤ)
    (hr : readImg i = some w)
    (hf : runImage proj (det i) w cfg = Except.error ()) :
    runDetectionBatch readImg proj det cfg (i :: rest) = Except.error () := by
  unfold runDetectionBatch
  rw [List.foldlM_cons]
  simp only [hr, hf]
  rfl

/-- C5 (witness): the abort at a concrete three-image batch. -/
theorem C5_abort_amended_witness :
    runDetectionBatch (fun _ => some 3600) (fun _ => cMapC1) detC5 cfgC5
      [0, 5, 7] = Except.error () :=
  C5_abort_amended (fun _ => some 3600) (fun _ => cMapC1) detC5 cfgC5 0 [5, 7]
    3600 rfl runImage_detC5_fail

/-! ### C6: no configuration validation is performed -/

/-- Config with a non-positive fov. -/
def cfgC6neg : Config := ⟨[-10], 1/2, 0, 0, 1/2, 1/4⟩

/-- Config with no fovs at all: an empty schedule. -/
def cfgC6empty : Config := ⟨[], 1/2, -75, 75, 1/2, 1/4⟩

/-- A detector that always raises: any returned detector error proves
the detector was invoked. -/
def detFail : ℚ × ℚ × ℚ → Except Unit (List RawDet) := fun _ => Except.error ()

set_option maxRecDepth 40000 in
unseal Rat.add Rat.mul Rat.inv Rat.sub in
/-- C6 (counterexample): with fov = −10 (non-positive) `run_detection`
raises no configuration error: the step falls back to the clamp
max(1, fov) = 1, the schedule has 360 viewports, and the detector IS
invoked (the run returns the detector's own error, not a configuration
error raised beforehand).  With an empty schedule the image completes
normally with an empty result instead of failing. -/
theorem C6_no_config_error_counterexample :
    (schedule cfgC6neg).length = 360
    ∧ runImage (fun _ => cMapC1) detFail 3600 cfgC6neg = Except.error ()
    ∧ runImage (fun _ => cMapC1) detFail 3600 cfgC6empty = Except.ok [] := by
  refine ⟨by rfl, by rfl, by rfl⟩

set_option maxRecDepth 40000 in
unseal Rat.add Rat.mul Rat.inv Rat.sub in
lemma arange_one_len : (arange 0 360 1).length = 360 := by decide

/-- C6 (amended): `run_detection` performs no configuration validation.
A non-positive fov (with overlap ≤ 1) makes the step fall through the
`step <= 0` guard to fov itself and then to the max(1, step) clamp, so
the yaw enumeration has 360 entries and detectors are invoked; an empty
fov list yields an empty schedule and the image completes with an empty
merged set — no error of any kind is raised before detector calls. -/
theorem C6_no_validation_amended :
    (∀ fov overlap : ℚ, fov ≤ 0 → overlap ≤ 1 →
      stepOf fov overlap ≤ 0 ∧ max 1 (stepOf fov overlap) = 1
      ∧ (yawVals (stepOf fov overlap)).length = 360)
    ∧ (∀ (proj : ℚ × ℚ × ℚ → SampleMap)
        (det : ℚ × ℚ × ℚ → Except Unit (List RawDet))
        (w : ℤ) (ov pmin pmax iou st : ℚ),
        runImage proj det w ⟨[], ov, pmin, pmax, iou, st⟩ = Except.ok []) := by
  constructor
  · intro fov overlap hf ho
    have hs : stepOf fov overlap ≤ 0 := by
      unfold stepOf
      by_cases h : fov * (1 - overlap) ≤ 0
      · rw [if_pos h]; exact hf
      · exact absurd (mul_nonpos_iff.2 (Or.inr ⟨hf, by linarith⟩)) h
    have hmax : max 1 (stepOf fov overlap) = 1 :=
      max_eq_left (le_trans hs (by norm_num))
    refine ⟨hs, hmax, ?_⟩
    unfold yawVals
    rw [hmax]
    exact arange_one_len
  · intro proj det w ov pmin pmax iou st
    rfl

/-- C6 (witness): the amended behaviour at fov = −10, overlap = 0.5 and
at the empty-fov configuration. -/
theorem C6_no_validation_amended_witness :
    (stepOf (-10) (1/2) ≤ 0 ∧ max 1 (stepOf (-10) (1/2)) = 1
      ∧ (yawVals (stepOf (-10) (1/2))).length = 360)
    ∧ runImage (fun _ => cMapC1) detFail 3600 ⟨[], 1/2, 0, 0, 1/2, 1/4⟩ =
        Except.ok [] :=
  ⟨C6_no_validation_amended.1 (-10) (1/2) (by norm_num) (by norm_num),
   C6_no_validation_amended.2 (fun _ => cMapC1) detFail 3600 (1/2) 0 0 (1/2)
     (1/4)⟩
